import Mathlib

/-!
Shallow embedding of the course-catalog extraction pipeline from
`backend/app/services/unl.py`.

Python strings are modelled as `List Char`; Python dictionaries (which keep
insertion order) are modelled as association lists `List (String × Value)`
with update-in-place-or-append assignment.  The numeric values produced by
`float(...)` on the short decimal tokens matched by the credit-hour regex are
modelled exactly as rationals (`ℚ`); on such tokens the `float` conversion is
order- and equality-faithful.  The HTML fragment handed to
`parse_course_block` is abstracted by the data the BeautifulSoup calls
extract from it: a parsed code, a parsed title and the ordered list of
labelled raw field values.  The HTTP fetch performed by
`get_unl_course_info` is abstracted by its outcome: either a transport
failure carrying the exception text, or a fetched page abstracted by the
list of course-block fragments found in it.
-/

/-- The non-breaking-space character `\xa0`. -/
def nbspChar : Char := Char.ofNat 160

/-- The single-quote character used in the not-found message. -/
def quoteChar : Char := Char.ofNat 39

/-- Python `str.isspace` (also the set matched by `\s` in `re` on `str`):
tab through carriage return, the C1 separators 28-31, space, NEL, NBSP and
the Unicode space characters. -/
def pyIsSpace (c : Char) : Bool :=
  let n := c.toNat
  (9 ≤ n && n ≤ 13) || (28 ≤ n && n ≤ 31) || n == 32 || n == 133 || n == 160 ||
    n == 5760 || (8192 ≤ n && n ≤ 8202) || n == 8232 || n == 8233 ||
    n == 8239 || n == 8287 || n == 12288

/-- The character class `[A-Z&]` of the course-code regex. -/
def isUpperAmp (c : Char) : Bool :=
  (65 ≤ c.toNat && c.toNat ≤ 90) || c.toNat == 38

/-- The character class `[A-Z]`. -/
def isUpperCh (c : Char) : Bool :=
  65 ≤ c.toNat && c.toNat ≤ 90

/-- The character class `[0-9]` (`\d` is modelled as ASCII digits). -/
def isDigitCh (c : Char) : Bool :=
  48 ≤ c.toNat && c.toNat ≤ 57

/-- Python `s.strip(chars)` generalised to a predicate: drop the characters
satisfying `p` from the left end, then from the right end. -/
def stripWhile (p : Char → Bool) (l : List Char) : List Char :=
  List.rdropWhile p (l.dropWhile p)

/-- The character set of `strip(" -: ")` in `parse_title_parts`. -/
def isSepChar (c : Char) : Bool :=
  c == ' ' || c == '-' || c == ':' || c == nbspChar

/-- `clean_value` from `unl.py`:
`v.replace("\xa0", " ").strip().lstrip(":").strip()`. -/
def clean_value (v : List Char) : List Char :=
  stripWhile pyIsSpace
    ((stripWhile pyIsSpace
        (v.map fun c => if c = nbspChar then ' ' else c)).dropWhile
      fun c => c == ':')

/-- The regex `^([A-Z&]{2,}\s+\d+[A-Z]?)\s{1,}(.*)$` applied with `re.match`.
Because the classes `[A-Z&]`, `\s`, `\d` and `[A-Z]` are pairwise disjoint,
the backtracking semantics coincide with maximal munch; `.` does not match a
newline and `$` also matches just before a trailing newline, so the final
`(.*)$` succeeds exactly when the remainder contains no newline other than a
trailing one.  Returns `(group 1, group 2)` on success. -/
def matchCodeTitle (t : List Char) : Option (List Char × List Char) :=
  let L := t.takeWhile isUpperAmp
  let r1 := t.dropWhile isUpperAmp
  if L.length < 2 then none else
  let W1 := r1.takeWhile pyIsSpace
  let r2 := r1.dropWhile pyIsSpace
  if W1.isEmpty then none else
  let D := r2.takeWhile isDigitCh
  let r3 := r2.dropWhile isDigitCh
  if D.isEmpty then none else
  let XR : List Char × List Char :=
    match r3 with
    | c :: rest => if isUpperCh c then ([c], rest) else ([], r3)
    | [] => ([], [])
  let X := XR.1
  let r4 := XR.2
  let W2 := r4.takeWhile pyIsSpace
  let r5 := r4.dropWhile pyIsSpace
  if W2.isEmpty then none else
  let g1 := L ++ W1 ++ D ++ X
  if '\n' ∈ r5 then
    if r5.getLast? = some '\n' ∧ '\n' ∉ r5.dropLast then some (g1, r5.dropLast)
    else none
  else some (g1, r5)

/-- `parse_title_parts` from `unl.py` (the inner helper of
`parse_course_block`): prefer stripping the known code as a prefix, else try
the course-code regex, else fall back to the whole cleaned string as the
title. -/
def parse_title_parts (text knownCode : List Char) : List Char × List Char :=
  let t := clean_value text
  if (knownCode.map Char.toUpper).isPrefixOf (t.map Char.toUpper) then
    (knownCode, clean_value (stripWhile isSepChar (t.drop knownCode.length)))
  else
    match matchCodeTitle t with
    | some (code, title) => (clean_value code, clean_value title)
    | none => (knownCode, t)

/-- Recursion core of `findNums`.  The fuel argument makes the recursion
structural; every recursive call consumes at least one character, so fuel
equal to the input length (as supplied by `findNums`) never runs out. -/
def findNumsAux : Nat → List Char → List (List Char)
  | 0, _ => []
  | _, [] => []
  | fuel + 1, c :: cs =>
    if isDigitCh c then
      match cs.dropWhile isDigitCh with
      | '.' :: d :: rest2 =>
        if isDigitCh d then
          (c :: cs.takeWhile isDigitCh ++ '.' :: d :: rest2.takeWhile isDigitCh)
            :: findNumsAux fuel (rest2.dropWhile isDigitCh)
        else (c :: cs.takeWhile isDigitCh) :: findNumsAux fuel ('.' :: d :: rest2)
      | r1 => (c :: cs.takeWhile isDigitCh) :: findNumsAux fuel r1
    else findNumsAux fuel cs

/-- `re.findall(r"[0-9]+(?:\.[0-9]+)?", ch)`: scan left to right; each match
is a maximal digit run optionally followed by a dot and a further non-empty
maximal digit run; scanning resumes after each match. -/
def findNums (s : List Char) : List (List Char) :=
  findNumsAux s.length s

/-- Decimal value of a digit string. -/
def digitsToNat (ds : List Char) : Nat :=
  ds.foldl (fun n c => 10 * n + (c.toNat - 48)) 0

/-- Python `float` on a token matched by `[0-9]+(?:\.[0-9]+)?`, modelled
exactly as the rational the decimal literal denotes (the `float` rounding is
monotone and injective on distinct short decimals, so order and equality
comparisons between these values are preserved). -/
def ratOfToken (t : List Char) : ℚ :=
  let ip := t.takeWhile isDigitCh
  match t.dropWhile isDigitCh with
  | '.' :: fr =>
    mkRat (digitsToNat ip * 10 ^ fr.length + digitsToNat fr) (10 ^ fr.length)
  | _ => mkRat (digitsToNat ip) 1

/-- A Python value stored in the course-info dictionary: a string, a list of
strings (the split `Offered` field) or a float (`min_hours` / `max_hours`). -/
inductive Value where
  | str : List Char → Value
  | lst : List (List Char) → Value
  | num : ℚ → Value
deriving DecidableEq

/-- Dictionary lookup `d[k]` / `d.get(k)` on the insertion-ordered
association list. -/
def dictGet (d : List (String × Value)) (k : String) : Option Value :=
  match d with
  | [] => none
  | (k2, v) :: rest => if k2 = k then some v else dictGet rest k

/-- Dictionary assignment `d[k] = v`: replace the value at the existing key
(keeping its position) or append a new entry.  Keys are unique in every
dictionary built by the pipeline. -/
def dictSet (d : List (String × Value)) (k : String) (v : Value) : List (String × Value) :=
  match d with
  | [] => [(k, v)]
  | (k2, v2) :: rest => if k2 = k then (k, v) :: rest else (k2, v2) :: dictSet rest k v

/-- `STANDARD_FIELDS` from `unl.py`. -/
def STANDARD_FIELDS : List String :=
  ["course_code", "course_title", "Prerequisites", "Description", "Notes",
   "Credit Hours", "min_hours", "max_hours", "Min credits per semester",
   "Max credits per semester", "Max credits per degree", "Grading Option",
   "Offered", "Groups", "ACE", "Course and Laboratory Fee",
   "Experiential Learning", "Prerequisite for"]

/-- The dictionary built by `parse_course_block` before post-processing:
the `course_code` / `course_title` entries followed by the labelled raw
fields (description, labelled paragraphs, raw `Offered` text) assigned in
extraction order, later assignments to the same label overwriting earlier
ones. -/
def buildInfo (code title : List Char) (raws : List (String × List Char)) :
    List (String × Value) :=
  raws.foldl (fun d kv => dictSet d kv.1 (Value.str kv.2))
    [("course_code", Value.str code), ("course_title", Value.str title)]

/-- Lines 110-114 of `unl.py`: convert `Offered` to a list.  A present,
non-empty (truthy) string has its spaces removed and is split on `/`;
otherwise `Offered` becomes the empty list.  Values other than strings
cannot occur at this point of the pipeline (`buildInfo` only inserts
strings). -/
def offeredStep (info : List (String × Value)) : List (String × Value) :=
  match dictGet info "Offered" with
  | some (Value.str off) =>
    if off.isEmpty then dictSet info "Offered" (Value.lst [])
    else dictSet info "Offered"
      (Value.lst ((off.filter fun c => c != ' ').splitOn '/'))
  | _ => dictSet info "Offered" (Value.lst [])

/-- Lines 116-125 of `unl.py`: re-clean `Credit Hours` and derive
`min_hours` / `max_hours` from the first one or two numeric tokens.  A
non-string value at the key cannot occur at this point of the pipeline. -/
def creditStep (info : List (String × Value)) : List (String × Value) :=
  match dictGet info "Credit Hours" with
  | some (Value.str raw) =>
    match findNums (clean_value raw) with
    | n1 :: n2 :: _ =>
      dictSet
        (dictSet (dictSet info "Credit Hours" (Value.str (clean_value raw)))
          "min_hours" (Value.num (ratOfToken n1)))
        "max_hours" (Value.num (ratOfToken n2))
    | [n1] =>
      dictSet
        (dictSet (dictSet info "Credit Hours" (Value.str (clean_value raw)))
          "min_hours" (Value.num (ratOfToken n1)))
        "max_hours" (Value.num (ratOfToken n1))
    | [] => dictSet info "Credit Hours" (Value.str (clean_value raw))
  | _ => info

/-- Lines 127-132 of `unl.py`: project the dictionary onto
`STANDARD_FIELDS` in order, defaulting absent fields to the empty
string. -/
def standardize (info : List (String × Value)) : List (String × Value) :=
  STANDARD_FIELDS.map fun f => (f, (dictGet info f).getD (Value.str []))

/-- Abstraction of one `div.courseblock` fragment by what the BeautifulSoup
calls extract from it: the code and title produced by the title-discovery
branch (an empty `parsedCode` models a falsy `parsed_code`, for which
`parse_course_block` falls back to the search query), and the labelled raw
string fields in extraction order. -/
structure Block where
  parsedCode : List Char
  parsedTitle : List Char
  raws : List (String × List Char)
deriving DecidableEq

/-- `parse_course_block` from `unl.py`, from the point where the extracted
data is assembled: build the info dictionary, post-process `Offered` and
`Credit Hours`, and standardize. -/
def parse_course_block (b : Block) (searchQuery : List Char) :
    List (String × Value) :=
  let code := if b.parsedCode.isEmpty then searchQuery else b.parsedCode
  standardize (creditStep (offeredStep (buildInfo code b.parsedTitle b.raws)))

/-- Outcome of the `requests.get` + `raise_for_status` + soup construction:
either a raised `RequestException` carrying its text (timeouts, connection
failures and non-2xx statuses all surface here), or the fetched page
abstracted by the list of located `courseblock` fragments. -/
inductive FetchOutcome where
  | failure : List Char → FetchOutcome
  | success : List Block → FetchOutcome
deriving DecidableEq

/-- A Python return value of `get_unl_course_info`: a single dictionary or a
list of dictionaries. -/
inductive PyRet where
  | dict : List (String × Value) → PyRet
  | list : List (List (String × Value)) → PyRet
deriving DecidableEq

/-- Message text `Failed to fetch course info: ...`. -/
def fetchFailMsg (e : List Char) : List Char :=
  "Failed to fetch course info: ".toList ++ e

/-- Message text naming the query between single quotes. -/
def noCoursesMsg (q : List Char) : List Char :=
  "No courses found for ".toList ++ quoteChar :: (q ++ [quoteChar])

/-- `get_unl_course_info` from `unl.py`, over an abstract fetch outcome:
failures become an error dictionary, zero fragments become a not-found error
dictionary, one fragment a single record, several fragments the ordered list
of records. -/
def get_unl_course_info (courseCode : List Char) (outcome : FetchOutcome) : PyRet :=
  match outcome with
  | .failure e => .dict [("error", Value.str (fetchFailMsg e))]
  | .success blocks =>
    if blocks.isEmpty then .dict [("error", Value.str (noCoursesMsg courseCode))]
    else
      let courses := blocks.map fun b => parse_course_block b courseCode
      match courses with
      | [c] => .dict c
      | _ => .list courses

/-- A concrete sample fragment used to instantiate universally quantified
theorems: a plain block with no raw fields. -/
def blk0 : Block :=
  ⟨ "CSCE 123".toList, "Computer Science I".toList, []⟩

/-- A concrete sample fragment carrying a description and a credit-hours
raw field. -/
def blk1 : Block :=
  ⟨ "MATH 106".toList, "Calculus I".toList,
    [("Description", "Functions and limits".toList),
     ("Credit Hours", "5 Credit Hours".toList)]⟩


/-! Helper lemmas about the dictionary model. -/

theorem dictGet_dictSet_self (d : List (String × Value)) (k : String) (v : Value) :
    dictGet (dictSet d k v) k = some v := by
  induction d with
  | nil => simp [dictSet, dictGet]
  | cons p rest ih =>
    obtain ⟨k2, v2⟩ := p
    by_cases h : k2 = k
    · subst h
      simp [dictSet, dictGet]
    · simp [dictSet, dictGet, h, ih]

theorem dictGet_dictSet_ne (d : List (String × Value)) (k k2 : String) (v : Value)
    (h : k ≠ k2) : dictGet (dictSet d k v) k2 = dictGet d k2 := by
  induction d with
  | nil => simp [dictSet, dictGet, h]
  | cons p rest ih =>
    obtain ⟨k3, v3⟩ := p
    by_cases h3 : k3 = k
    · subst h3
      simp [dictSet, dictGet, h, Ne.symm h]
    · by_cases h2 : k3 = k2 <;> simp [dictSet, dictGet, h3, h2, ih, Ne.symm h]

theorem dictGet_eq_none_of_not_mem (d : List (String × Value)) (k : String)
    (h : k ∉ d.map Prod.fst) : dictGet d k = none := by
  induction d with
  | nil => rfl
  | cons p rest ih =>
    obtain ⟨k2, v2⟩ := p
    simp only [List.map_cons, List.mem_cons] at h
    push_neg at h
    have hne : ¬ k2 = k := fun hh => h.1 hh.symm
    simp [dictGet, hne, ih h.2]

theorem dictGet_buildRaws (d0 : List (String × Value))
    (raws : List (String × List Char)) (k : String)
    (h : k ∉ raws.map Prod.fst) :
    dictGet (raws.foldl (fun d kv => dictSet d kv.1 (Value.str kv.2)) d0) k
      = dictGet d0 k := by
  induction raws generalizing d0 with
  | nil => rfl
  | cons kv rest ih =>
    simp only [List.map_cons, List.mem_cons] at h
    push_neg at h
    simp only [List.foldl_cons]
    rw [ih _ h.2, dictGet_dictSet_ne _ _ _ _ (Ne.symm h.1)]

theorem dictGet_offeredStep_ne (d : List (String × Value)) (k : String)
    (h : k ≠ "Offered") : dictGet (offeredStep d) k = dictGet d k := by
  unfold offeredStep
  split
  · split <;> exact dictGet_dictSet_ne _ _ _ _ (Ne.symm h)
  · exact dictGet_dictSet_ne _ _ _ _ (Ne.symm h)

theorem dictGet_creditStep_ne (d : List (String × Value)) (k : String)
    (h1 : k ≠ "Credit Hours") (h2 : k ≠ "min_hours") (h3 : k ≠ "max_hours") :
    dictGet (creditStep d) k = dictGet d k := by
  unfold creditStep
  split
  · split
    · rw [dictGet_dictSet_ne _ _ _ _ (Ne.symm h3),
        dictGet_dictSet_ne _ _ _ _ (Ne.symm h2),
        dictGet_dictSet_ne _ _ _ _ (Ne.symm h1)]
    · rw [dictGet_dictSet_ne _ _ _ _ (Ne.symm h3),
        dictGet_dictSet_ne _ _ _ _ (Ne.symm h2),
        dictGet_dictSet_ne _ _ _ _ (Ne.symm h1)]
    · exact dictGet_dictSet_ne _ _ _ _ (Ne.symm h1)
  · rfl

theorem creditStep_of_none (d : List (String × Value))
    (h : dictGet d "Credit Hours" = none) : creditStep d = d := by
  unfold creditStep
  rw [h]

theorem dictGet_fieldsMap (fs : List String) (F : String → Value) (f : String)
    (h : f ∈ fs) :
    dictGet (fs.map fun g => (g, F g)) f = some (F f) := by
  induction fs with
  | nil => cases h
  | cons g rest ih =>
    by_cases hg : g = f
    · subst hg
      simp [dictGet]
    · rcases List.mem_cons.mp h with h1 | h1
      · exact absurd h1.symm hg
      · simp [dictGet, hg, ih h1]

theorem dictGet_standardize (d : List (String × Value)) (f : String)
    (h : f ∈ STANDARD_FIELDS) :
    dictGet (standardize d) f = some ((dictGet d f).getD (Value.str [])) :=
  dictGet_fieldsMap STANDARD_FIELDS _ f h

theorem standardize_keys (d : List (String × Value)) :
    (standardize d).map Prod.fst = STANDARD_FIELDS := by
  unfold standardize
  rw [List.map_map]
  exact List.map_id STANDARD_FIELDS

/-! Helper lemmas about stripping and cleaning. -/

theorem stripWhile_dropWhile_self (p : Char → Bool) (l : List Char) :
    (stripWhile p l).dropWhile p = stripWhile p l := by
  unfold stripWhile
  rw [List.dropWhile_eq_self_iff]
  intro hl
  have hpre : List.rdropWhile p (l.dropWhile p) <+: l.dropWhile p :=
    List.rdropWhile_prefix p (l.dropWhile p)
  have h0 := List.dropWhile_eq_self_iff.mp (List.dropWhile_idempotent p l)
  have hlen : 0 < (l.dropWhile p).length := lt_of_lt_of_le hl hpre.length_le
  have hg := hpre.getElem hl
  have hy := h0 hlen
  simp only [List.get_eq_getElem] at hy ⊢
  rw [hg]
  exact hy

theorem stripWhile_idem (p : Char → Bool) (l : List Char) :
    stripWhile p (stripWhile p l) = stripWhile p l := by
  show List.rdropWhile p ((stripWhile p l).dropWhile p) = stripWhile p l
  rw [stripWhile_dropWhile_self]
  show List.rdropWhile p (List.rdropWhile p (l.dropWhile p)) = _
  rw [List.rdropWhile_idempotent]
  rfl

theorem mem_of_mem_stripWhile {p : Char → Bool} {c : Char} {l : List Char}
    (h : c ∈ stripWhile p l) : c ∈ l := by
  unfold stripWhile at h
  have h1 : c ∈ l.dropWhile p :=
    List.IsPrefix.mem h ( List.rdropWhile_prefix p (l.dropWhile p))
  exact (List.dropWhile_sublist p).mem h1

theorem map_nbsp_eq_self (l : List Char) (h : ∀ c ∈ l, c ≠ nbspChar) :
    (l.map fun c => if c = nbspChar then ' ' else c) = l := by
  induction l with
  | nil => rfl
  | cons c cs ih =>
    simp only [List.map_cons]
    rw [if_neg (h c (List.mem_cons_self c cs)),
      ih fun c2 hc2 => h c2 (List.mem_cons_of_mem c hc2)]

theorem not_nbsp_of_mem_map (v : List Char) (c : Char)
    (h : c ∈ v.map fun x => if x = nbspChar then ' ' else x) : c ≠ nbspChar := by
  obtain ⟨x, hx, rfl⟩ := List.mem_map.mp h
  by_cases hx2 : x = nbspChar
  · rw [if_pos hx2]
    decide
  · rw [if_neg hx2]
    exact hx2

theorem clean_value_no_nbsp (v : List Char) : ∀ c ∈ clean_value v, c ≠ nbspChar := by
  intro c hc
  unfold clean_value at hc
  have h1 := mem_of_mem_stripWhile hc
  have h2 := (List.dropWhile_sublist fun c => c == ':').mem h1
  have h3 := mem_of_mem_stripWhile h2
  exact not_nbsp_of_mem_map _ c h3

theorem clean_value_fixed (y : List Char)
    (hnb : ∀ c ∈ y, c ≠ nbspChar)
    (hs : stripWhile pyIsSpace y = y)
    (hh : y.head? ≠ some ':') :
    clean_value y = y := by
  unfold clean_value
  rw [map_nbsp_eq_self y hnb, hs]
  have hcolon : y.dropWhile (fun c => c == ':') = y := by
    cases y with
    | nil => rfl
    | cons c cs =>
      have hcn : ¬ (c == ':') = true := by
        simp only [List.head?_cons, ne_eq, Option.some.injEq] at hh
        simpa using hh
      exact List.dropWhile_cons_of_neg hcn
  rw [hcolon, hs]

/-! Character-class disjointness facts used by the regex model. -/

theorem not_isUpperAmp_of_pyIsSpace (c : Char) (h : pyIsSpace c = true) :
    isUpperAmp c = false := by
  cases hu : isUpperAmp c
  · rfl
  · exfalso
    unfold pyIsSpace at h
    unfold isUpperAmp at hu
    simp only [Bool.or_eq_true, Bool.and_eq_true, decide_eq_true_eq, beq_iff_eq] at h hu
    omega

theorem not_pyIsSpace_of_isDigitCh (c : Char) (h : isDigitCh c = true) :
    pyIsSpace c = false := by
  cases hu : pyIsSpace c
  · rfl
  · exfalso
    unfold pyIsSpace at hu
    unfold isDigitCh at h
    simp only [Bool.or_eq_true, Bool.and_eq_true, decide_eq_true_eq, beq_iff_eq] at h hu
    omega

theorem not_isDigitCh_of_pyIsSpace (c : Char) (h : pyIsSpace c = true) :
    isDigitCh c = false := by
  cases hu : isDigitCh c
  · rfl
  · exfalso
    unfold pyIsSpace at h
    unfold isDigitCh at hu
    simp only [Bool.or_eq_true, Bool.and_eq_true, decide_eq_true_eq, beq_iff_eq] at h hu
    omega

theorem not_isUpperCh_of_pyIsSpace (c : Char) (h : pyIsSpace c = true) :
    isUpperCh c = false := by
  cases hu : isUpperCh c
  · rfl
  · exfalso
    unfold pyIsSpace at h
    unfold isUpperCh at hu
    simp only [Bool.or_eq_true, Bool.and_eq_true, decide_eq_true_eq, beq_iff_eq] at h hu
    omega

theorem not_isDigitCh_of_isUpperCh (c : Char) (h : isUpperCh c = true) :
    isDigitCh c = false := by
  cases hu : isDigitCh c
  · rfl
  · exfalso
    unfold isUpperCh at h
    unfold isDigitCh at hu
    simp only [Bool.and_eq_true, decide_eq_true_eq] at h hu
    omega

/-- Boundary computation: `takeWhile` and `dropWhile` on an append whose
left part satisfies `p` throughout and whose right part starts (if at all)
with a character refuting `p`. -/
theorem takeWhile_append_boundary (p : Char → Bool) (A B : List Char)
    (hA : ∀ c ∈ A, p c = true) (hB : ∀ c, B.head? = some c → p c = false) :
    (A ++ B).takeWhile p = A ∧ (A ++ B).dropWhile p = B := by
  induction A with
  | nil =>
    cases B with
    | nil => exact ⟨rfl, rfl⟩
    | cons b Bt =>
      refine ⟨?_, ?_⟩
      · simp [List.takeWhile_cons, hB b rfl]
      · simp [List.dropWhile_cons, hB b rfl]
  | cons a At ih =>
    have ha : p a = true := hA a (List.mem_cons_self a At)
    have iht := ih fun c hc => hA c (List.mem_cons_of_mem a hc)
    refine ⟨?_, ?_⟩
    · simp [List.cons_append, List.takeWhile_cons, ha, iht.1]
    · simp [List.cons_append, List.dropWhile_cons, ha, iht.2]

/-- On a string decomposed as letters, whitespace, digits, optional single
uppercase letter, whitespace and a newline-free remainder whose first
character is not whitespace, the regex model returns group 1 and group 2 of
the pattern. -/
theorem matchCodeTitle_of_decomp (L W1 D X W2 R : List Char)
    (hL2 : 2 ≤ L.length) (hLall : ∀ c ∈ L, isUpperAmp c = true)
    (hW1ne : W1 ≠ []) (hW1all : ∀ c ∈ W1, pyIsSpace c = true)
    (hDne : D ≠ []) (hDall : ∀ c ∈ D, isDigitCh c = true)
    (hX : X = [] ∨ ∃ x, X = [x] ∧ isUpperCh x = true)
    (hW2ne : W2 ≠ []) (hW2all : ∀ c ∈ W2, pyIsSpace c = true)
    (hRhead : ∀ c, R.head? = some c → pyIsSpace c = false)
    (hRnl : '\n' ∉ R) :
    matchCodeTitle (L ++ (W1 ++ (D ++ (X ++ (W2 ++ R)))))
      = some (L ++ W1 ++ D ++ X, R) := by
  obtain ⟨w1, W1t, rfl⟩ := List.exists_cons_of_ne_nil hW1ne
  obtain ⟨d1, Dt, rfl⟩ := List.exists_cons_of_ne_nil hDne
  obtain ⟨w2, W2t, rfl⟩ := List.exists_cons_of_ne_nil hW2ne
  have hw1 : pyIsSpace w1 = true := hW1all w1 (List.mem_cons_self w1 W1t)
  have hd1 : isDigitCh d1 = true := hDall d1 (List.mem_cons_self d1 Dt)
  have hw2 : pyIsSpace w2 = true := hW2all w2 (List.mem_cons_self w2 W2t)
  have hw1A : isUpperAmp w1 = false := not_isUpperAmp_of_pyIsSpace w1 hw1
  have hd1S : pyIsSpace d1 = false := not_pyIsSpace_of_isDigitCh d1 hd1
  have hw2D : isDigitCh w2 = false := not_isDigitCh_of_pyIsSpace w2 hw2
  have hw2U : isUpperCh w2 = false := not_isUpperCh_of_pyIsSpace w2 hw2
  have hB1 : ∀ c, ((w1 :: W1t) ++ ((d1 :: Dt) ++ (X ++ ((w2 :: W2t) ++ R)))).head?
      = some c → isUpperAmp c = false := by
    intro c hc
    simp only [List.cons_append, List.head?_cons, Option.some.injEq] at hc
    rw [← hc]
    exact hw1A
  have hB2 : ∀ c, ((d1 :: Dt) ++ (X ++ ((w2 :: W2t) ++ R))).head?
      = some c → pyIsSpace c = false := by
    intro c hc
    simp only [List.cons_append, List.head?_cons, Option.some.injEq] at hc
    rw [← hc]
    exact hd1S
  have hB3 : ∀ c, (X ++ ((w2 :: W2t) ++ R)).head? = some c → isDigitCh c = false := by
    intro c hc
    rcases hX with hx0 | ⟨x, hx1, hxU⟩
    · subst hx0
      simp only [List.nil_append, List.cons_append, List.head?_cons,
        Option.some.injEq] at hc
      rw [← hc]
      exact hw2D
    · subst hx1
      simp only [List.cons_append, List.head?_cons, Option.some.injEq] at hc
      rw [← hc]
      exact not_isDigitCh_of_isUpperCh x hxU
  have e1 := takeWhile_append_boundary isUpperAmp L
    ((w1 :: W1t) ++ ((d1 :: Dt) ++ (X ++ ((w2 :: W2t) ++ R)))) hLall hB1
  have e2 := takeWhile_append_boundary pyIsSpace (w1 :: W1t)
    ((d1 :: Dt) ++ (X ++ ((w2 :: W2t) ++ R))) hW1all hB2
  have e3 := takeWhile_append_boundary isDigitCh (d1 :: Dt)
    (X ++ ((w2 :: W2t) ++ R)) hDall hB3
  have e4 := takeWhile_append_boundary pyIsSpace (w2 :: W2t) R hW2all hRhead
  have e4t : (w2 :: (W2t ++ R)).takeWhile pyIsSpace = w2 :: W2t := by
    rw [← List.cons_append]
    exact e4.1
  have e4d : (w2 :: (W2t ++ R)).dropWhile pyIsSpace = R := by
    rw [← List.cons_append]
    exact e4.2
  have hne1 : ¬ ((w1 :: W1t).isEmpty = true) := by simp
  have hne2 : ¬ ((d1 :: Dt).isEmpty = true) := by simp
  have hne3 : ¬ ((w2 :: W2t).isEmpty = true) := by simp
  have hu2 : ¬ (isUpperCh w2 = true) := by simp [hw2U]
  simp only [matchCodeTitle]
  rw [e1.1, e1.2, e2.1, e2.2, e3.1, e3.2]
  rw [if_neg (by omega)]
  rw [if_neg hne1, if_neg hne2]
  rcases hX with hx0 | ⟨x, hx1, hxU⟩
  · subst hx0
    simp only [List.nil_append, List.cons_append]
    rw [if_neg hu2]
    simp only []
    rw [e4t, e4d]
    rw [if_neg hne3, if_neg hRnl]
  · subst hx1
    simp only [List.cons_append, List.nil_append]
    rw [if_pos hxU]
    simp only []
    rw [e4t, e4d]
    rw [if_neg hne3, if_neg hRnl]

/-! Unfolding lemmas for the post-processing steps. -/

theorem offeredStep_of_get_none (d : List (String × Value))
    (h : dictGet d "Offered" = none) :
    offeredStep d = dictSet d "Offered" (Value.lst []) := by
  unfold offeredStep
  rw [h]

theorem offeredStep_of_get_str (d : List (String × Value)) (off : List Char)
    (h : dictGet d "Offered" = some (Value.str off)) :
    offeredStep d =
      if off.isEmpty then dictSet d "Offered" (Value.lst [])
      else dictSet d "Offered"
        (Value.lst ((off.filter fun c => c != ' ').splitOn '/')) := by
  unfold offeredStep
  rw [h]

theorem creditStep_of_get_two (d : List (String × Value)) (raw : List Char)
    (n1 n2 : List Char) (ns : List (List Char))
    (h : dictGet d "Credit Hours" = some (Value.str raw))
    (hn : findNums (clean_value raw) = n1 :: n2 :: ns) :
    creditStep d =
      dictSet
        (dictSet (dictSet d "Credit Hours" (Value.str (clean_value raw)))
          "min_hours" (Value.num (ratOfToken n1)))
        "max_hours" (Value.num (ratOfToken n2)) := by
  unfold creditStep
  rw [h]
  dsimp only
  rw [hn]

theorem creditStep_of_get_one (d : List (String × Value)) (raw : List Char)
    (n1 : List Char)
    (h : dictGet d "Credit Hours" = some (Value.str raw))
    (hn : findNums (clean_value raw) = [n1]) :
    creditStep d =
      dictSet
        (dictSet (dictSet d "Credit Hours" (Value.str (clean_value raw)))
          "min_hours" (Value.num (ratOfToken n1)))
        "max_hours" (Value.num (ratOfToken n1)) := by
  unfold creditStep
  rw [h]
  dsimp only
  rw [hn]

theorem creditStep_of_get_zero (d : List (String × Value)) (raw : List Char)
    (h : dictGet d "Credit Hours" = some (Value.str raw))
    (hn : findNums (clean_value raw) = []) :
    creditStep d = dictSet d "Credit Hours" (Value.str (clean_value raw)) := by
  unfold creditStep
  rw [h]
  dsimp only
  rw [hn]

theorem dictGet_init_ne (code title : List Char) (f : String)
    (h1 : f ≠ "course_code") (h2 : f ≠ "course_title") :
    dictGet [("course_code", Value.str code), ("course_title", Value.str title)] f
      = none := by
  simp [dictGet, Ne.symm h1, Ne.symm h2]

theorem pipeline_absent_field (code title : List Char)
    (raws : List (String × List Char)) (f : String)
    (hraw : f ∉ raws.map Prod.fst)
    (h1 : f ≠ "course_code") (h2 : f ≠ "course_title") (h3 : f ≠ "Offered")
    (h4 : f ≠ "min_hours") (h5 : f ≠ "max_hours") :
    dictGet (creditStep (offeredStep (buildInfo code title raws))) f = none := by
  have hBI : dictGet (buildInfo code title raws) f = none := by
    unfold buildInfo
    rw [dictGet_buildRaws _ _ _ hraw]
    exact dictGet_init_ne code title f h1 h2
  have hO : dictGet (offeredStep (buildInfo code title raws)) f
      = dictGet (buildInfo code title raws) f := dictGet_offeredStep_ne _ _ h3
  by_cases hch : f = "Credit Hours"
  · subst hch
    have hOnone : dictGet (offeredStep (buildInfo code title raws)) "Credit Hours"
        = none := by rw [hO, hBI]
    rw [creditStep_of_none _ hOnone, hOnone]
  · rw [dictGet_creditStep_ne _ _ hch h4 h5, hO, hBI]

theorem pipeline_offered_absent (code title : List Char)
    (raws : List (String × List Char))
    (h : "Offered" ∉ raws.map Prod.fst) :
    dictGet (creditStep (offeredStep (buildInfo code title raws))) "Offered"
      = some (Value.lst []) := by
  have hBI : dictGet (buildInfo code title raws) "Offered" = none := by
    unfold buildInfo
    rw [dictGet_buildRaws _ _ _ h]
    exact dictGet_init_ne code title _ (by decide) (by decide)
  rw [dictGet_creditStep_ne _ _ (by decide) (by decide) (by decide),
    offeredStep_of_get_none _ hBI, dictGet_dictSet_self]

theorem pipeline_minmax_absent (code title : List Char)
    (raws : List (String × List Char))
    (hch : "Credit Hours" ∉ raws.map Prod.fst)
    (hmin : "min_hours" ∉ raws.map Prod.fst)
    (hmax : "max_hours" ∉ raws.map Prod.fst) :
    dictGet (creditStep (offeredStep (buildInfo code title raws))) "min_hours" = none
      ∧ dictGet (creditStep (offeredStep (buildInfo code title raws))) "max_hours"
        = none := by
  have hOnone : dictGet (offeredStep (buildInfo code title raws)) "Credit Hours"
      = none := by
    rw [dictGet_offeredStep_ne _ _ (by decide)]
    unfold buildInfo
    rw [dictGet_buildRaws _ _ _ hch]
    exact dictGet_init_ne code title _ (by decide) (by decide)
  rw [creditStep_of_none _ hOnone]
  constructor
  · rw [dictGet_offeredStep_ne _ _ (by decide)]
    unfold buildInfo
    rw [dictGet_buildRaws _ _ _ hmin]
    exact dictGet_init_ne code title _ (by decide) (by decide)
  · rw [dictGet_offeredStep_ne _ _ (by decide)]
    unfold buildInfo
    rw [dictGet_buildRaws _ _ _ hmax]
    exact dictGet_init_ne code title _ (by decide) (by decide)

/-! Claim theorems. -/

/-- C1 counterexample: the record produced by `parse_course_block` has 18
fields (the schema list has 18 names), not 17 as the claim states; moreover
the defaults clause fails literally for the fields the pipeline itself
sets: `course_code` is absent from the raw field map yet filled with the
splitter's code rather than the empty string, and `min_hours` is absent
from the raw field map yet filled with the number derived from a present
`Credit Hours` raw value. -/
theorem record_field_count_ne_17 :
    ((parse_course_block blk0 []).length = 18
        ∧ ¬ ((parse_course_block blk0 []).length = 17))
      ∧ ("course_code" ∉ blk0.raws.map Prod.fst
        ∧ dictGet (parse_course_block blk0 []) "course_code"
            = some (Value.str "CSCE 123".toList)
        ∧ dictGet (parse_course_block blk0 []) "course_code"
            ≠ some (Value.str []))
      ∧ ("min_hours" ∉ blk1.raws.map Prod.fst
        ∧ dictGet (parse_course_block blk1 []) "min_hours"
            = some (Value.num (ratOfToken "5".toList))
        ∧ dictGet (parse_course_block blk1 []) "min_hours"
            ≠ some (Value.str [])) :=
  ⟨⟨by decide, by decide⟩, ⟨by decide, by decide, by decide⟩,
    ⟨by decide, by decide, by decide⟩⟩

/-- C1 (amended): for every fragment and search query, the record returned
by `parse_course_block` contains exactly the 18 canonical fields of the
schema, in canonical order, with no extras; every field absent from the raw
field map is filled with the empty string (empty list for the `Offered`
field), except `course_code` and `course_title`, which always carry the
splitter's output, and the derived `min_hours` and `max_hours`, which are
filled with the empty string whenever no `Credit Hours` raw value is
present. -/
theorem record_schema_exact (b : Block) (q : List Char) :
    ((parse_course_block b q).map Prod.fst = STANDARD_FIELDS
        ∧ STANDARD_FIELDS.length = 18)
      ∧ (∀ f, f ∈ STANDARD_FIELDS → f ∉ b.raws.map Prod.fst →
          f ≠ "course_code" → f ≠ "course_title" → f ≠ "Offered" →
          f ≠ "min_hours" → f ≠ "max_hours" →
          dictGet (parse_course_block b q) f = some (Value.str []))
      ∧ ("Offered" ∉ b.raws.map Prod.fst →
          dictGet (parse_course_block b q) "Offered" = some (Value.lst []))
      ∧ ("Credit Hours" ∉ b.raws.map Prod.fst →
          "min_hours" ∉ b.raws.map Prod.fst →
          "max_hours" ∉ b.raws.map Prod.fst →
          dictGet (parse_course_block b q) "min_hours" = some (Value.str [])
            ∧ dictGet (parse_course_block b q) "max_hours" = some (Value.str [])) := by
  have hpb : parse_course_block b q
      = standardize (creditStep (offeredStep (buildInfo
          (if b.parsedCode.isEmpty then q else b.parsedCode)
          b.parsedTitle b.raws))) := rfl
  refine ⟨⟨?_, rfl⟩, ?_, ?_, ?_⟩
  · rw [hpb]
    exact standardize_keys _
  · intro f hf hraw h1 h2 h3 h4 h5
    rw [hpb, dictGet_standardize _ f hf,
      pipeline_absent_field _ _ _ f hraw h1 h2 h3 h4 h5]
    rfl
  · intro hraw
    rw [hpb, dictGet_standardize _ _ (by decide),
      pipeline_offered_absent _ _ _ hraw]
    rfl
  · intro hch hmin hmax
    have hmm := pipeline_minmax_absent
      (if b.parsedCode.isEmpty then q else b.parsedCode) b.parsedTitle b.raws
      hch hmin hmax
    constructor
    · rw [hpb, dictGet_standardize _ _ (by decide), hmm.1]
      rfl
    · rw [hpb, dictGet_standardize _ _ (by decide), hmm.2]
      rfl

/-- C1 witness: instantiation of the amended schema theorem on a concrete
fragment with an empty raw field map. -/
theorem record_schema_exact_witness :
    dictGet (parse_course_block blk0 []) "Notes" = some (Value.str [])
      ∧ dictGet (parse_course_block blk0 []) "Offered" = some (Value.lst [])
      ∧ dictGet (parse_course_block blk0 []) "min_hours" = some (Value.str []) :=
  ⟨(record_schema_exact blk0 []).2.1 "Notes" (by decide) (by decide) (by decide)
      (by decide) (by decide) (by decide) (by decide),
   (record_schema_exact blk0 []).2.2.1 (by decide),
   ((record_schema_exact blk0 []).2.2.2 (by decide) (by decide) (by decide)).1⟩

/-- C3 counterexample: `clean_value` is not idempotent; interleaved colons
and spaces expose one more leading colon at each application. -/
theorem clean_value_not_idempotent :
    clean_value (clean_value [':', ' ', ':', 'a'])
      ≠ clean_value [':', ' ', ':', 'a'] := by
  decide

/-- C3 (amended): `clean_value` is idempotent on every input whose cleaned
value does not begin with a colon (in particular on the empty string and on
whitespace-only or non-breaking-space-only strings, which clean to the empty
string). -/
theorem clean_value_idem_of_head_ne_colon (x : List Char)
    (h : (clean_value x).head? ≠ some ':') :
    clean_value (clean_value x) = clean_value x := by
  refine clean_value_fixed (clean_value x) (clean_value_no_nbsp x) ?_ h
  show stripWhile pyIsSpace (stripWhile pyIsSpace
      ((stripWhile pyIsSpace
          (x.map fun c => if c = nbspChar then ' ' else c)).dropWhile
        fun c => c == ':'))
    = clean_value x
  rw [stripWhile_idem]
  rfl

/-- C3 witness: idempotence at a concrete input (and at a whitespace-only
input). -/
theorem clean_value_idem_witness :
    ((clean_value "  a b ".toList).head? ≠ some ':'
        ∧ clean_value (clean_value "  a b ".toList) = clean_value "  a b ".toList)
      ∧ clean_value (clean_value [' ', nbspChar, ' ']) = clean_value [' ', nbspChar, ' '] :=
  ⟨⟨by decide, clean_value_idem_of_head_ne_colon ("  a b ".toList) (by decide)⟩,
   clean_value_idem_of_head_ne_colon [' ', nbspChar, ' '] (by decide)⟩

/-- C2 counterexample: on the credit text `4 or 3` the post-processor sets
`min_hours` to 4 and `max_hours` to 3, violating the claimed invariant
`min_hours <= max_hours`. -/
theorem credit_minmax_order_violated :
    dictGet (creditStep [("Credit Hours", Value.str "4 or 3".toList)]) "min_hours"
        = some (Value.num (ratOfToken ['4']))
      ∧ dictGet (creditStep [("Credit Hours", Value.str "4 or 3".toList)]) "max_hours"
        = some (Value.num (ratOfToken ['3']))
      ∧ ¬ (ratOfToken ['4'] ≤ ratOfToken ['3']) :=
  ⟨by decide, by decide, by decide⟩

/-- C2 (amended): for every credit-hour text with two or more numeric
tokens, `min_hours` is the first token and `max_hours` the second, and
`min_hours <= max_hours` holds whenever the first token's value is at most
the second token's value. -/
theorem credit_two_tokens_first_second (d : List (String × Value))
    (raw n1 n2 : List Char) (ns : List (List Char))
    (h : dictGet d "Credit Hours" = some (Value.str raw))
    (hn : findNums (clean_value raw) = n1 :: n2 :: ns) :
    dictGet (creditStep d) "min_hours" = some (Value.num (ratOfToken n1))
      ∧ dictGet (creditStep d) "max_hours" = some (Value.num (ratOfToken n2))
      ∧ (ratOfToken n1 ≤ ratOfToken n2 →
          ∀ a b : ℚ, dictGet (creditStep d) "min_hours" = some (Value.num a) →
            dictGet (creditStep d) "max_hours" = some (Value.num b) → a ≤ b) := by
  rw [creditStep_of_get_two d raw n1 n2 ns h hn]
  refine ⟨?_, ?_, ?_⟩
  · rw [dictGet_dictSet_ne _ _ _ _ (by decide), dictGet_dictSet_self]
  · rw [dictGet_dictSet_self]
  · intro hle a b ha hb
    rw [dictGet_dictSet_ne _ _ _ _ (by decide), dictGet_dictSet_self] at ha
    rw [dictGet_dictSet_self] at hb
    simp only [Option.some.injEq, Value.num.injEq] at ha hb
    rw [← ha, ← hb]
    exact hle

/-- C2 witness: the spec example `3.0 to 4.0 credit hours` yields
min 3.0 and max 4.0. -/
theorem credit_two_tokens_witness :
    dictGet (creditStep
        [("Credit Hours", Value.str "3.0 to 4.0 credit hours".toList)]) "min_hours"
        = some (Value.num (ratOfToken "3.0".toList))
      ∧ dictGet (creditStep
        [("Credit Hours", Value.str "3.0 to 4.0 credit hours".toList)]) "max_hours"
        = some (Value.num (ratOfToken "4.0".toList)) :=
  ⟨(credit_two_tokens_first_second
      [("Credit Hours", Value.str "3.0 to 4.0 credit hours".toList)]
      ("3.0 to 4.0 credit hours".toList) ("3.0".toList) ("4.0".toList) []
      (by decide) (by decide)).1,
   (credit_two_tokens_first_second
      [("Credit Hours", Value.str "3.0 to 4.0 credit hours".toList)]
      ("3.0 to 4.0 credit hours".toList) ("3.0".toList) ("4.0".toList) []
      (by decide) (by decide)).2.1⟩

/-- C8: a single numeric token sets `min_hours = max_hours` to that value;
no numeric token leaves both unset, so both standardize to the empty-string
schema default. -/
theorem credit_one_token_and_none (d : List (String × Value)) (raw : List Char)
    (h : dictGet d "Credit Hours" = some (Value.str raw))
    (hmin : dictGet d "min_hours" = none) (hmax : dictGet d "max_hours" = none) :
    (∀ n1, findNums (clean_value raw) = [n1] →
        dictGet (creditStep d) "min_hours" = some (Value.num (ratOfToken n1))
          ∧ dictGet (creditStep d) "max_hours" = some (Value.num (ratOfToken n1)))
      ∧ (findNums (clean_value raw) = [] →
          dictGet (creditStep d) "min_hours" = none
            ∧ dictGet (creditStep d) "max_hours" = none
            ∧ dictGet (standardize (creditStep d)) "min_hours" = some (Value.str [])
            ∧ dictGet (standardize (creditStep d)) "max_hours" = some (Value.str [])) := by
  constructor
  · intro n1 hn
    rw [creditStep_of_get_one d raw n1 h hn]
    exact ⟨by rw [dictGet_dictSet_ne _ _ _ _ (by decide), dictGet_dictSet_self],
      by rw [dictGet_dictSet_self]⟩
  · intro hn
    rw [creditStep_of_get_zero d raw h hn]
    have h1 : dictGet (dictSet d "Credit Hours" (Value.str (clean_value raw)))
        "min_hours" = none := by
      rw [dictGet_dictSet_ne _ _ _ _ (by decide)]
      exact hmin
    have h2 : dictGet (dictSet d "Credit Hours" (Value.str (clean_value raw)))
        "max_hours" = none := by
      rw [dictGet_dictSet_ne _ _ _ _ (by decide)]
      exact hmax
    refine ⟨h1, h2, ?_, ?_⟩
    · rw [dictGet_standardize _ _ (by decide), h1]
      rfl
    · rw [dictGet_standardize _ _ (by decide), h2]
      rfl

/-- C8 witness: `3 Credit Hours` yields min = max = 3; `TBD` leaves the
standardized defaults. -/
theorem credit_one_token_witness :
    (dictGet (creditStep [("Credit Hours", Value.str "3 Credit Hours".toList)])
        "min_hours" = some (Value.num (ratOfToken "3".toList))
      ∧ dictGet (creditStep [("Credit Hours", Value.str "3 Credit Hours".toList)])
        "max_hours" = some (Value.num (ratOfToken "3".toList)))
      ∧ dictGet (standardize (creditStep [("Credit Hours", Value.str "TBD".toList)]))
          "min_hours" = some (Value.str []) :=
  ⟨(credit_one_token_and_none [("Credit Hours", Value.str "3 Credit Hours".toList)]
      ("3 Credit Hours".toList) (by decide) (by decide) (by decide)).1
      ("3".toList) (by decide),
   ((credit_one_token_and_none [("Credit Hours", Value.str "TBD".toList)]
      ("TBD".toList) (by decide) (by decide) (by decide)).2 (by decide)).2.2.1⟩

/-- C9 counterexample: internal whitespace other than the space character is
not removed; a tab inside the raw `Offered` value survives the split. -/
theorem offered_tab_not_removed :
    dictGet (offeredStep [("Offered", Value.str "FALL\t/ SPR".toList)]) "Offered"
        = some (Value.lst ["FALL\t".toList, "SPR".toList])
      ∧ dictGet (offeredStep [("Offered", Value.str "FALL\t/ SPR".toList)]) "Offered"
        ≠ some (Value.lst ["FALL".toList, "SPR".toList]) :=
  ⟨by decide, by decide⟩

/-- C9 (amended): for a present, non-empty raw `Offered` value the
post-processor removes all internal space characters (U+0020 only) and
splits on `/`; an absent or empty raw value yields the empty list. -/
theorem offered_split_behavior (d : List (String × Value)) :
    (∀ off, dictGet d "Offered" = some (Value.str off) → ¬ off.isEmpty = true →
        dictGet (offeredStep d) "Offered"
          = some (Value.lst ((off.filter fun c => c != ' ').splitOn '/')))
      ∧ (∀ off, dictGet d "Offered" = some (Value.str off) → off.isEmpty = true →
          dictGet (offeredStep d) "Offered" = some (Value.lst []))
      ∧ (dictGet d "Offered" = none →
          dictGet (offeredStep d) "Offered" = some (Value.lst [])) := by
  refine ⟨?_, ?_, ?_⟩
  · intro off h hne
    rw [offeredStep_of_get_str d off h, if_neg hne, dictGet_dictSet_self]
  · intro off h he
    rw [offeredStep_of_get_str d off h, if_pos he, dictGet_dictSet_self]
  · intro h
    rw [offeredStep_of_get_none d h, dictGet_dictSet_self]

/-- C9 witness: `FALL / SPR` splits into the two term tokens, and a
dictionary without the key gets the empty list. -/
theorem offered_split_witness :
    dictGet (offeredStep [("Offered", Value.str "FALL / SPR".toList)]) "Offered"
        = some (Value.lst ["FALL".toList, "SPR".toList])
      ∧ dictGet (offeredStep [("Notes", Value.str [])]) "Offered"
        = some (Value.lst []) := by
  constructor
  · have h := (offered_split_behavior [("Offered", Value.str "FALL / SPR".toList)]).1
      ("FALL / SPR".toList) (by decide) (by decide)
    exact h.trans (by decide)
  · exact (offered_split_behavior [("Notes", Value.str [])]).2.2 (by decide)

/-- C4 counterexample: the code requires two or more letters before the
digits (`[A-Z&]{2,}`), so a heading with a single-letter subject token does
not match the pattern and falls back, contradicting the claimed one-or-more
pattern. -/
theorem split_title_single_letter_no_match :
    parse_title_parts "A 123 Rest".toList "ZZZ".toList
        = ("ZZZ".toList, "A 123 Rest".toList)
      ∧ parse_title_parts "A 123 Rest".toList "ZZZ".toList
        ≠ (clean_value "A 123".toList, clean_value "Rest".toList) :=
  ⟨by decide, by decide⟩

/-- C4 (amended): when the cleaned heading does not start with the known
code, `parse_title_parts` matches it against the pattern two-or-more
uppercase-letters-or-ampersand, whitespace, digits optionally followed by
one uppercase letter, whitespace, remainder; on a match it returns the
matched code token and the matched remainder, each normalized. -/
theorem split_title_pattern_match (text knownCode L W1 D X W2 R : List Char)
    (hpre : ((knownCode.map Char.toUpper).isPrefixOf
        ((clean_value text).map Char.toUpper)) = false)
    (hdec : clean_value text = L ++ (W1 ++ (D ++ (X ++ (W2 ++ R)))))
    (hL2 : 2 ≤ L.length) (hLall : ∀ c ∈ L, isUpperAmp c = true)
    (hW1ne : W1 ≠ []) (hW1all : ∀ c ∈ W1, pyIsSpace c = true)
    (hDne : D ≠ []) (hDall : ∀ c ∈ D, isDigitCh c = true)
    (hX : X = [] ∨ ∃ x, X = [x] ∧ isUpperCh x = true)
    (hW2ne : W2 ≠ []) (hW2all : ∀ c ∈ W2, pyIsSpace c = true)
    (hR : R = [] ∨ ∃ r Rt, R = r :: Rt ∧ pyIsSpace r = false)
    (hRnl : '\n' ∉ R) :
    parse_title_parts text knownCode
      = (clean_value (L ++ W1 ++ D ++ X), clean_value R) := by
  have hRhead : ∀ c, R.head? = some c → pyIsSpace c = false := by
    intro c hc
    rcases hR with h0 | ⟨r, Rt, hre, hr⟩
    · subst h0
      simp at hc
    · subst hre
      simp only [List.head?_cons, Option.some.injEq] at hc
      rw [← hc]
      exact hr
  have hm : matchCodeTitle (clean_value text) = some (L ++ W1 ++ D ++ X, R) := by
    rw [hdec]
    exact matchCodeTitle_of_decomp L W1 D X W2 R hL2 hLall hW1ne hW1all hDne hDall
      hX hW2ne hW2all hRhead hRnl
  simp only [parse_title_parts]
  rw [hpre]
  simp only [Bool.false_eq_true, if_false, hm]

/-- C4 witness: the pattern branch applied to a concrete heading that does
not start with the known code. -/
theorem split_title_pattern_witness :
    parse_title_parts "CSCE 123  Intro to CS".toList "ZZZ".toList
      = (clean_value ("CSCE".toList ++ " ".toList ++ "123".toList ++ []),
         clean_value "Intro to CS".toList) :=
  split_title_pattern_match "CSCE 123  Intro to CS".toList "ZZZ".toList
    ("CSCE".toList) (" ".toList) ("123".toList) [] ("  ".toList)
    ("Intro to CS".toList)
    (by decide) (by decide) (by decide) (by decide) (by decide) (by decide)
    (by decide) (by decide) (Or.inl rfl) (by decide) (by decide)
    (Or.inr ⟨'I', "ntro to CS".toList, by decide, by decide⟩) (by decide)

/-- C5: every transport failure (timeouts, connection failures, non-2xx
statuses surfaced by `raise_for_status`) is returned by
`get_unl_course_info` as a dictionary value with an `error` key whose
message embeds the failure text; no exception escapes the orchestrator,
which is total over all fetch outcomes. -/
theorem orchestrator_failure_returns_error_value (q emsg : List Char) :
    get_unl_course_info q (FetchOutcome.failure emsg)
        = PyRet.dict [("error", Value.str (fetchFailMsg emsg))]
      ∧ dictGet [("error", Value.str (fetchFailMsg emsg))] "error"
        = some (Value.str (fetchFailMsg emsg))
      ∧ emsg <:+ fetchFailMsg emsg :=
  ⟨rfl, rfl, ⟨"Failed to fetch course info: ".toList, rfl⟩⟩

/-- C6: exactly one located fragment is returned as a single record
dictionary; two or more are returned as the ordered list of records, in
document order. -/
theorem orchestrator_shape_decision (q : List Char) (blocks : List Block) :
    (∀ b, blocks = [b] →
        get_unl_course_info q (FetchOutcome.success blocks)
          = PyRet.dict (parse_course_block b q))
      ∧ (2 ≤ blocks.length →
          get_unl_course_info q (FetchOutcome.success blocks)
            = PyRet.list (blocks.map fun b => parse_course_block b q)) := by
  constructor
  · intro b hb
    subst hb
    rfl
  · intro h2
    obtain ⟨b1, rest1, rfl⟩ : ∃ b1 t, blocks = b1 :: t := by
      cases blocks with
      | nil => simp at h2
      | cons a t => exact ⟨a, t, rfl⟩
    obtain ⟨b2, rest2, rfl⟩ : ∃ b2 t, rest1 = b2 :: t := by
      cases rest1 with
      | nil => simp at h2
      | cons a t => exact ⟨a, t, rfl⟩
    rfl

/-- C6 witness: one fragment gives a single dictionary, two fragments give
the ordered two-element list. -/
theorem orchestrator_shape_witness :
    get_unl_course_info [] (FetchOutcome.success [blk0])
        = PyRet.dict (parse_course_block blk0 [])
      ∧ get_unl_course_info [] (FetchOutcome.success [blk0, blk1])
        = PyRet.list ([blk0, blk1].map fun b => parse_course_block b []) :=
  ⟨(orchestrator_shape_decision [] [blk0]).1 blk0 rfl,
   (orchestrator_shape_decision [] [blk0, blk1]).2 (by decide)⟩

/-- C7: a successful fetch that locates zero fragments returns the
not-found error dictionary; its message contains the original query text
and does not carry the transport-failure message prefix. -/
theorem orchestrator_no_courses_error (q : List Char) :
    get_unl_course_info q (FetchOutcome.success [])
        = PyRet.dict [("error", Value.str (noCoursesMsg q))]
      ∧ q <:+: noCoursesMsg q
      ∧ ¬ ("Failed to fetch course info: ".toList <+: noCoursesMsg q) := by
  refine ⟨rfl, ⟨"No courses found for ".toList ++ [quoteChar], [quoteChar], rfl⟩, ?_⟩
  intro hcontra
  obtain ⟨t, ht⟩ := hcontra
  have h1 : (noCoursesMsg q).head? = some 'F' := by
    rw [← ht]
    rfl
  have h2 : (noCoursesMsg q).head? = some 'N' := rfl
  rw [h1] at h2
  exact absurd h2 (by decide)

/-- C10: the three result shapes are disjoint at the public interface: a
single-record success return is exactly the standardized record, whose key
set is `STANDARD_FIELDS`; that set does not contain `error`, so the record
never has an `error` key and callers can test for the error shape by that
key alone. -/
theorem success_record_has_no_error_key (q : List Char) (b : Block) :
    get_unl_course_info q (FetchOutcome.success [b])
        = PyRet.dict (parse_course_block b q)
      ∧ (parse_course_block b q).map Prod.fst = STANDARD_FIELDS
      ∧ "error" ∉ STANDARD_FIELDS
      ∧ dictGet (parse_course_block b q) "error" = none := by
  refine ⟨rfl, standardize_keys _, by decide, ?_⟩
  apply dictGet_eq_none_of_not_mem
  rw [show (parse_course_block b q).map Prod.fst = STANDARD_FIELDS from
    standardize_keys _]
  decide
